import Mathlib

/-!
Shallow embedding of the devmetrics incremental repository-sync engine.

Sources embedded:
* `src/lib/github.ts` — the paginated resource fetchers (`fetchCommits`,
  `fetchPullRequests`, `fetchReviews`) and the pre-flight rate-limit query;
* `src/lib/db.ts` — the SQLite-backed store (`insertCommit`,
  `insertPullRequest`, `insertReview`, `updateRepoSyncState`, `startSyncRun`,
  `updateSyncRunProgress`, `completeSyncRun`, `removeRepo`);
* `src/app/config/page.tsx` (the `POST` sync orchestrator, lines 409-641) —
  target resolution, the pre-flight budget gate, the per-repository cycle and
  the terminal-status bookkeeping of a sync run.

Modelling conventions:
* ISO-8601 timestamp strings compare exactly like the instants they denote,
  so every timestamp is modelled as a `Nat` (milliseconds since the epoch).
* The remote API is an external collaborator: its page responses, detail-call
  outcomes and the rate-limit answer are inputs to the model.
* A JavaScript `throw` is an `Except.error`; a thrown fetch loses its local
  accumulator exactly as in the source.
* SQLite tables are lists of rows; `INSERT OR REPLACE` deletes the row with
  the conflicting primary key and appends the new row.
-/

deriving instance DecidableEq for Except

namespace DevMetrics

/-- Rate-limit snapshot returned by `getRateLimit` (github.ts:78-87). -/
structure RateLimitInfo where
  remaining : Nat
  limit : Nat
  used : Nat
  resetAt : Nat
deriving Repr, DecidableEq

/-- Errors a fetcher can throw (github.ts): `GitHubConfigError`,
`RateLimitError` (carrying reset time and remaining budget), or any other
remote-call failure (transport). -/
inductive GHError where
  | config
  | rateLimited (resetAt : Nat) (remaining : Nat)
  | transport
deriving Repr, DecidableEq

/-- Message text recorded for a thrown error (`error.message`). -/
def GHError.message : GHError → String
  | .config => "GitHub token not configured"
  | .rateLimited _ _ => "Rate limit too low"
  | .transport => "transport failure"

/-- Whether an `Except` is a success (`.ok`). -/
def exceptOk {ε α : Type} : Except ε α → Bool
  | .ok _ => true
  | .error _ => false

/-! ## fetchCommits (github.ts:129-190)

A page item carries the fields the fetcher reads from `repos.listCommits`
together with the outcome of the `repos.getCommit` detail call for it:
the detail additions/deletions, or `detailFails = true` when that remote
call throws. The `since` watermark is applied server-side by the remote,
so the supplied pages already reflect it. -/

/-- One commit as served by the remote list call, plus its detail-call data. -/
structure CommitItem where
  sha : String
  author_login : Option String
  author_email : Option String
  message : String
  additions : Nat
  deletions : Nat
  committed_at : Nat
  detailFails : Bool
deriving Repr, DecidableEq

/-- Record pushed onto the `commits` array (github.ts:170-178). -/
structure CommitRec where
  sha : String
  author_login : Option String
  author_email : Option String
  message : String
  additions : Nat
  deletions : Nat
  committed_at : Nat
deriving Repr, DecidableEq

/-- Projection of a list item to the pushed record. -/
def CommitItem.toRec (c : CommitItem) : CommitRec :=
  ⟨c.sha, c.author_login, c.author_email, c.message, c.additions, c.deletions, c.committed_at⟩

/-- Inner for-loop of `fetchCommits` over one page (github.ts:155-183): each
item's detail call either succeeds (record pushed) or throws, discarding the
whole accumulated array. -/
def scanCommitPage : List CommitItem → Except GHError (List CommitRec)
  | [] => .ok []
  | c :: rest =>
    if c.detailFails then .error .transport
    else
      match scanCommitPage rest with
      | .error e => .error e
      | .ok recs => .ok (c.toRec :: recs)

/-- Outer while-loop of `fetchCommits` (github.ts:140-187): request a page,
break on an empty page, scan its items, break when the page is short, else
continue with the next page. Pages beyond the supplied list are empty. -/
def fetchCommitsGo (perPage : Nat) : List (List CommitItem) → Except GHError (List CommitRec)
  | [] => .ok []
  | page :: rest =>
    if page.length = 0 then .ok []
    else
      match scanCommitPage page with
      | .error e => .error e
      | .ok recs =>
        if page.length < perPage then .ok recs
        else
          match fetchCommitsGo perPage rest with
          | .error e => .error e
          | .ok more => .ok (recs ++ more)

/-- Model of `fetchCommits`: the remote page sequence is the input. -/
def fetchCommitsM (pages : List (List CommitItem)) (perPage : Nat) :
    Except GHError (List CommitRec) :=
  fetchCommitsGo perPage pages

/-- Records the fetch walk had accumulated in its local array at the moment
the first failing detail call threw (github.ts:137, the `commits` array):
the items scanned before the first `detailFails` item, in scan order. -/
def commitsFetchedBefore (pages : List (List CommitItem)) : List CommitRec :=
  (pages.flatten.takeWhile (fun c => !c.detailFails)).map CommitItem.toRec

/-! ## fetchPullRequests (github.ts:203-281)

The remote serves pages sorted by update time descending. A list item carries
every field the fetcher reads, including `updated_at` (used only for the
watermark filter) and the detail-call additions/deletions. Detail calls are
assumed to succeed here; failure behaviour is exercised through the commit
fetcher, which shares the accumulate-then-throw shape. -/

/-- One pull request as served by `pulls.list`, plus its `pulls.get` detail. -/
structure PRItem where
  id : Nat
  number : Nat
  author_login : Option String
  title : String
  state : String
  additions : Nat
  deletions : Nat
  created_at : Nat
  merged_at : Option Nat
  closed_at : Option Nat
  updated_at : Nat
deriving Repr, DecidableEq

/-- Record pushed onto the `prs` array (github.ts:256-267); note that
`updated_at` is not part of the stored record. -/
structure PRRec where
  id : Nat
  number : Nat
  author_login : Option String
  title : String
  state : String
  additions : Nat
  deletions : Nat
  created_at : Nat
  merged_at : Option Nat
  closed_at : Option Nat
deriving Repr, DecidableEq

/-- Projection of a list item to the pushed record. -/
def PRItem.toRec (p : PRItem) : PRRec :=
  ⟨p.id, p.number, p.author_login, p.title, p.state, p.additions, p.deletions,
   p.created_at, p.merged_at, p.closed_at⟩

/-- Inner for-loop of `fetchPullRequests` over one page (github.ts:233-272):
an item strictly older than the watermark is skipped and sets the
`foundOlder` flag; every other item is pushed. Returns the pushed records in
order and the flag. -/
def scanPRPage (sinceDate : Option Nat) : List PRItem → List PRRec × Bool
  | [] => ([], false)
  | pr :: rest =>
    match sinceDate with
    | some s =>
      if pr.updated_at < s then
        let r := scanPRPage sinceDate rest
        (r.1, true)
      else
        let r := scanPRPage sinceDate rest
        (pr.toRec :: r.1, r.2)
    | none =>
      let r := scanPRPage sinceDate rest
      (pr.toRec :: r.1, r.2)

/-- Outer while-loop of `fetchPullRequests` (github.ts:216-278): request a
page, break on an empty page, scan it, break when `foundOlder` is set or the
page is short, else continue. Returns the stored records together with the
number of `pulls.list` page requests issued. Pages beyond the supplied list
are empty. -/
def fetchPullRequestsGo (sinceDate : Option Nat) (perPage : Nat) :
    List (List PRItem) → List PRRec × Nat
  | [] => ([], 1)
  | page :: rest =>
    if page.length = 0 then ([], 1)
    else
      let s := scanPRPage sinceDate page
      if s.2 = true then (s.1, 1)
      else if page.length < perPage then (s.1, 1)
      else
        let r := fetchPullRequestsGo sinceDate perPage rest
        (s.1 ++ r.1, r.2 + 1)

/-- Model of `fetchPullRequests`: descending-by-update-time page sequence in,
stored records and count of page requests out. -/
def fetchPullRequestsM (pages : List (List PRItem)) (since : Option Nat) (perPage : Nat) :
    List PRRec × Nat :=
  fetchPullRequestsGo since perPage pages

/-- Review record returned by `fetchReviews` (github.ts:299-304). -/
structure ReviewRec where
  id : Nat
  reviewer_login : String
  state : String
  submitted_at : Nat
deriving Repr, DecidableEq

/-! ## The store (src/lib/db.ts)

Each SQLite table is a list of rows holding exactly the columns the source
writes; `fetched_at`/`added_at` columns filled by SQLite defaults are
database metadata outside the written payload and are not modelled. -/

/-- Row of the `repos` table (db.ts:33-41). -/
structure RepoRow where
  id : Nat
  owner : String
  name : String
  full_name : String
deriving Repr, DecidableEq

/-- Row of the `commits` table as written by `insertCommit` (db.ts:154-180). -/
structure CommitRow where
  sha : String
  repo_id : Nat
  author_login : Option String
  author_email : Option String
  message : String
  additions : Nat
  deletions : Nat
  committed_at : Nat
deriving Repr, DecidableEq

/-- Row of the `pull_requests` table as written by `insertPullRequest`
(db.ts:183-215). -/
structure PRRow where
  id : Nat
  repo_id : Nat
  number : Nat
  author_login : Option String
  title : String
  state : String
  additions : Nat
  deletions : Nat
  created_at : Nat
  merged_at : Option Nat
  closed_at : Option Nat
deriving Repr, DecidableEq

/-- Row of the `reviews` table as written by `insertReview` (db.ts:218-232). -/
structure ReviewRow where
  id : Nat
  pr_id : Nat
  reviewer_login : String
  state : String
  submitted_at : Nat
deriving Repr, DecidableEq

/-- Row of the `repo_sync_state` table (db.ts:99-106). -/
structure SyncStateRow where
  repo_id : Nat
  last_commit_sync : Option Nat
  last_pr_sync : Option Nat
  updated_at : Nat
deriving Repr, DecidableEq

/-- Row of the `sync_runs` table (db.ts:109-122); `status` is one of the
source's string literals `running`, `complete`, `partial`, `error`. -/
structure SyncRunRow where
  id : Nat
  started_at : Nat
  completed_at : Option Nat
  status : String
  total_repos : Nat
  completed_repos : Nat
  total_commits : Nat
  total_prs : Nat
  total_reviews : Nat
  error_message : Option String
deriving Repr, DecidableEq

/-- The whole database. -/
structure Store where
  repos : List RepoRow
  commits : List CommitRow
  pull_requests : List PRRow
  reviews : List ReviewRow
  repo_sync_state : List SyncStateRow
  sync_runs : List SyncRunRow
deriving Repr, DecidableEq

/-- Semantics of `INSERT OR REPLACE` on a list-backed table: SQLite deletes the row with
the conflicting primary key and inserts the new row. -/
def upsertBy {α κ : Type} [DecidableEq κ] (key : α → κ) (r : α) (t : List α) : List α :=
  t.filter (fun x => key x ≠ key r) ++ [r]

/-- Model of `insertCommit` (db.ts:154-180): upsert keyed by `sha`. -/
def insertCommit (c : CommitRow) (st : Store) : Store :=
  { st with commits := upsertBy CommitRow.sha c st.commits }

/-- Model of `insertPullRequest` (db.ts:183-215): upsert keyed by `id`. -/
def insertPullRequest (p : PRRow) (st : Store) : Store :=
  { st with pull_requests := upsertBy PRRow.id p st.pull_requests }

/-- Model of `insertReview` (db.ts:218-232): upsert keyed by `id`. -/
def insertReview (v : ReviewRow) (st : Store) : Store :=
  { st with reviews := upsertBy ReviewRow.id v st.reviews }

/-- Model of `removeRepo` (db.ts:139-146): deletes the repository's reviews (through
the pull-request subquery), pull requests, commits and the repo row itself —
and touches nothing else. -/
def removeRepo (id : Nat) (st : Store) : Store :=
  let prIds := (st.pull_requests.filter (fun p => p.repo_id = id)).map PRRow.id
  { st with
    reviews := st.reviews.filter (fun rv => ¬ prIds.contains rv.pr_id),
    pull_requests := st.pull_requests.filter (fun p => ¬ p.repo_id = id),
    commits := st.commits.filter (fun c => ¬ c.repo_id = id),
    repos := st.repos.filter (fun r => ¬ r.id = id) }

/-- Model of `getRepoSyncState` (db.ts:235-239). -/
def getRepoSyncState (repoId : Nat) (st : Store) : Option SyncStateRow :=
  st.repo_sync_state.find? (fun r => r.repo_id = repoId)

/-- SQL `COALESCE(?, column)`: the bound argument when non-null, else the
current column value. -/
def coalesce (a b : Option Nat) : Option Nat :=
  match a with
  | some v => some v
  | none => b

/-- Model of `updateRepoSyncState` (db.ts:241-263): update the existing row through
`COALESCE`, or insert a fresh row; `now` is the wall-clock instant taken for
`updated_at`. -/
def updateRepoSyncState (repoId : Nat) (commitSync prSync : Option Nat) (now : Nat)
    (st : Store) : Store :=
  match getRepoSyncState repoId st with
  | some _ =>
    { st with repo_sync_state := st.repo_sync_state.map (fun r =>
        if r.repo_id = repoId then
          { r with
            last_commit_sync := coalesce commitSync r.last_commit_sync,
            last_pr_sync := coalesce prSync r.last_pr_sync,
            updated_at := now }
        else r) }
  | none =>
    { st with repo_sync_state := st.repo_sync_state ++ [⟨repoId, commitSync, prSync, now⟩] }

/-- Model of `startSyncRun` (db.ts:266-274): insert a `running` row and return its
id; AUTOINCREMENT is modelled as one past the current row count. -/
def startSyncRun (totalRepos : Nat) (now : Nat) (st : Store) : Nat × Store :=
  let id := st.sync_runs.length + 1
  (id, { st with sync_runs :=
      st.sync_runs ++ [⟨id, now, none, "running", totalRepos, 0, 0, 0, 0, none⟩] })

/-- Model of `updateSyncRunProgress` (db.ts:276-290). -/
def updateSyncRunProgress (runId completed commits prs reviews : Nat) (st : Store) : Store :=
  { st with sync_runs := st.sync_runs.map (fun r =>
      if r.id = runId then
        { r with
          completed_repos := completed,
          total_commits := commits,
          total_prs := prs,
          total_reviews := reviews }
      else r) }

/-- Model of `completeSyncRun` (db.ts:292-300): set completion time, terminal status
and error message on the run row. -/
def completeSyncRun (runId : Nat) (status : String) (errMsg : Option String) (now : Nat)
    (st : Store) : Store :=
  { st with sync_runs := st.sync_runs.map (fun r =>
      if r.id = runId then
        { r with completed_at := some now, status := status, error_message := errMsg }
      else r) }

/-! ## The sync orchestrator (src/app/config/page.tsx:409-641)

The `POST` handler opens a server-sent-event stream and runs the whole sync
inside the stream's `start` callback. The model below computes the ordered
event list the stream carries (the stream is closed right after the last
event on every source path), the resulting store, and the trace of fetcher
invocations. A fetcher's outcome — the returned list or the thrown error —
is an input (`RepoBehavior`); the free-text progress events the fetchers
emit through their `onProgress` callbacks are all of kind `progress` and are
not itemized. -/

/-- One server-sent event (config/page.tsx:399-403): its `type` string, and
the rate-limit reset instant the event carries in its message text or
`data.resetAt` payload (`none` when it carries no reset time). -/
structure SyncEvent where
  kind : String
  resetAt : Option Nat
deriving Repr, DecidableEq

/-- Whether an event is terminal for the stream (`complete` or `error`). -/
def SyncEvent.isTerminal (e : SyncEvent) : Bool :=
  e.kind = "complete" ∨ e.kind = "error"

/-- One fetcher invocation recorded by the orchestrator model. -/
inductive FetchCall where
  | commitsCall (repoId : Nat)
  | prsCall (repoId : Nat)
  | reviewsCall (repoId : Nat) (prNumber : Nat)
deriving Repr, DecidableEq

/-- Outcome of one repository's remote interactions, abstracting the
fetchers: the orchestrator observes either the returned record list or the
thrown error. `startTime` is the instant `new Date().toISOString()` captured
at the top of the cycle (config/page.tsx:499); it also stands in for the
`updated_at` instant `updateRepoSyncState` takes moments later.
`reviewsFor n` is the `fetchReviews` result for PR number `n` (reviews are
assumed to be returned). -/
structure RepoBehavior where
  startTime : Nat
  commitResult : Except GHError (List CommitRec)
  prResult : Except GHError (List PRRec)
  reviewsFor : Nat → List ReviewRec

/-- Mutable state of one orchestration: the store, the events emitted so
far, the fetcher calls made so far, and the running totals held in the
handler's local variables (config/page.tsx:429, 484-486). -/
structure OrchS where
  st : Store
  events : List SyncEvent
  calls : List FetchCall
  totalCommits : Nat
  totalPRs : Nat
  totalReviews : Nat
  completedRepos : Nat
deriving Repr, DecidableEq

/-- Commit row written for a fetched commit (config/page.tsx:530). -/
def commitRowOf (repoId : Nat) (c : CommitRec) : CommitRow :=
  ⟨c.sha, repoId, c.author_login, c.author_email, c.message, c.additions, c.deletions,
   c.committed_at⟩

/-- Pull-request row written for a fetched PR (config/page.tsx:555). -/
def prRowOf (repoId : Nat) (p : PRRec) : PRRow :=
  ⟨p.id, repoId, p.number, p.author_login, p.title, p.state, p.additions, p.deletions,
   p.created_at, p.merged_at, p.closed_at⟩

/-- Review row written for a fetched review (config/page.tsx:561). -/
def reviewRowOf (prId : Nat) (v : ReviewRec) : ReviewRow :=
  ⟨v.id, prId, v.reviewer_login, v.state, v.submitted_at⟩

/-- PR persistence loop (config/page.tsx:554-564): each PR is upserted, then
its reviews are fetched and upserted, before the next PR. Returns the new
store, the number of reviews ingested, and the review fetch calls made. -/
def insertPRsLoop (repoId : Nat) (reviewsFor : Nat → List ReviewRec) :
    List PRRec → Store → Store × Nat × List FetchCall
  | [], st => (st, 0, [])
  | pr :: rest, st =>
    let st1 := insertPullRequest (prRowOf repoId pr) st
    let rs := reviewsFor pr.number
    let st2 := rs.foldl (fun s v => insertReview (reviewRowOf pr.id v) s) st1
    let r := insertPRsLoop repoId reviewsFor rest st2
    (r.1, rs.length + r.2.1, .reviewsCall repoId pr.number :: r.2.2)

/-- One repository's sync cycle (config/page.tsx:496-590): emit `repo_start`
and a commit-phase `progress`, fetch commits (throw propagates), upsert each
commit, emit two `progress` events, fetch PRs (throw propagates), upsert
each PR with its reviews, advance both watermarks to the cycle start time,
bump the handler's totals and the run row, and emit `repo_done`. A thrown
fetch returns the state as it stood at the throw. -/
def syncOneRepo (runId : Nat) (repo : RepoRow) (b : RepoBehavior) (s : OrchS) :
    Except (GHError × OrchS) OrchS :=
  let s0 := { s with
    events := s.events ++ [⟨"repo_start", none⟩, ⟨"progress", none⟩],
    calls := s.calls ++ [.commitsCall repo.id] }
  match b.commitResult with
  | .error e => .error (e, s0)
  | .ok commits =>
    let st1 := commits.foldl (fun t c => insertCommit (commitRowOf repo.id c) t) s0.st
    let s1 := { s0 with
      st := st1,
      events := s0.events ++ [⟨"progress", none⟩, ⟨"progress", none⟩],
      calls := s0.calls ++ [.prsCall repo.id] }
    match b.prResult with
    | .error e => .error (e, s1)
    | .ok prs =>
      let r := insertPRsLoop repo.id b.reviewsFor prs s1.st
      let st2 := updateRepoSyncState repo.id (some b.startTime) (some b.startTime)
        b.startTime r.1
      let totalCommits := s1.totalCommits + commits.length
      let totalPRs := s1.totalPRs + prs.length
      let totalReviews := s1.totalReviews + r.2.1
      let completed := s1.completedRepos + 1
      let st3 := updateSyncRunProgress runId completed totalCommits totalPRs totalReviews st2
      .ok { st := st3,
            events := s1.events ++ [⟨"progress", none⟩, ⟨"repo_done", none⟩],
            calls := s1.calls ++ r.2.2,
            totalCommits := totalCommits,
            totalPRs := totalPRs,
            totalReviews := totalReviews,
            completedRepos := completed }

/-- The per-repository for-loop (config/page.tsx:496-590), sequential; the
first thrown error aborts the remaining repositories. `beh` gives each
repository's remote behaviour, keyed by repository id. -/
def syncLoop (runId : Nat) (beh : Nat → RepoBehavior) :
    List RepoRow → OrchS → Except (GHError × OrchS) OrchS
  | [], s => .ok s
  | r :: rest, s =>
    match syncOneRepo runId r (beh r.id) s with
    | .error e => .error e
    | .ok s1 => syncLoop runId beh rest s1

/-- Target resolution (config/page.tsx:432-450): an explicit full name looks
up one repository (`none` = not found), else a non-empty id list filters the
tracked repositories, else all tracked repositories. -/
def resolveRepos (st : Store) (repoFullName : Option String) (repoIds : Option (List Nat)) :
    Option (List RepoRow) :=
  match repoFullName with
  | some fn =>
    match st.repos.find? (fun r => r.full_name = fn) with
    | none => none
    | some r => some [r]
  | none =>
    match repoIds with
    | some ids =>
      if ids.length > 0 then some (st.repos.filter (fun r => ids.contains r.id))
      else some st.repos
    | none => some st.repos

/-- Result of one `POST` invocation: the ordered event stream (closed right
after its last event), the final store, and the fetch calls made. -/
structure SyncResult where
  events : List SyncEvent
  st : Store
  calls : List FetchCall
deriving Repr, DecidableEq

/-- Error event sent from the catch block (config/page.tsx:609-627): a
`RateLimitError` carries its reset time in message and payload; other errors
carry none. -/
def catchEvent : GHError → SyncEvent
  | .rateLimited resetAt _ => ⟨"error", some resetAt⟩
  | _ => ⟨"error", none⟩

/-- Main path after the pre-flight gate (config/page.tsx:482-629): create
the run row, emit `start`, run the per-repository loop, then finalize the
run — `complete` on success, and in the catch block `partial` when at least
one repository had completed, else `error` — and emit the terminal event.
`pre` holds the pre-flight events already emitted. -/
def runSyncMain (st0 : Store) (repos : List RepoRow) (pre : List SyncEvent)
    (beh : Nat → RepoBehavior) (clock : Nat) : SyncResult :=
  let r := startSyncRun repos.length clock st0
  let s0 : OrchS := ⟨r.2, pre ++ [⟨"start", none⟩], [], 0, 0, 0, 0⟩
  match syncLoop r.1 beh repos s0 with
  | .ok s =>
    let st2 := completeSyncRun r.1 "complete" none clock s.st
    ⟨s.events ++ [⟨"complete", none⟩], st2, s.calls⟩
  | .error es =>
    let status := if es.2.completedRepos > 0 then "partial" else "error"
    let st2 := completeSyncRun r.1 status (some es.1.message) clock es.2.st
    ⟨es.2.events ++ [catchEvent es.1], st2, es.2.calls⟩

/-- The whole `POST` handler (config/page.tsx:409-641). `rl` is the outcome
of the pre-flight `getRateLimit` call; `clock` is the wall-clock instant used
for the run row's `started_at`/`completed_at`. Paths, in source order:
repository-not-found error; empty-target-set error; pre-flight gate (a
budget below 50 is terminal, a thrown rate-limit query is swallowed into a
`progress` event); then the main path above. -/
def runSync (st0 : Store) (repoFullName : Option String) (repoIds : Option (List Nat))
    (rl : Except GHError RateLimitInfo) (beh : Nat → RepoBehavior) (clock : Nat) :
    SyncResult :=
  match resolveRepos st0 repoFullName repoIds with
  | none => ⟨[⟨"error", none⟩], st0, []⟩
  | some repos =>
    if repos.length = 0 then ⟨[⟨"error", none⟩], st0, []⟩
    else
      match rl with
      | .ok info =>
        if info.remaining < 50 then
          ⟨[⟨"progress", some info.resetAt⟩, ⟨"error", some info.resetAt⟩], st0, []⟩
        else
          runSyncMain st0 repos [⟨"progress", some info.resetAt⟩] beh clock
      | .error _ =>
        runSyncMain st0 repos [⟨"progress", none⟩] beh clock

/-! ## Auxiliary definitions used by the verification -/

/-- State reached by a cycle or the loop, whether it returned or threw. -/
def resState : Except (GHError × OrchS) OrchS → OrchS
  | .ok s => s
  | .error e => e.2

/-- Whether both fetches of a repository's cycle succeed, i.e. the cycle
completes without a thrown error. -/
def RepoBehavior.okB (b : RepoBehavior) : Bool :=
  exceptOk b.commitResult && exceptOk b.prResult

/-- Placeholder repository row for positional list access. -/
def dummyRepo : RepoRow := ⟨0, "", "", ""⟩

/-- Characterization of the single `sync_runs` row while a run started on an
empty history is in flight: the row's aggregate counters mirror the
handler's local variables. -/
def runInv (total started : Nat) (s : OrchS) : Prop :=
  s.st.sync_runs =
    [⟨1, started, none, "running", total, s.completedRepos, s.totalCommits,
      s.totalPRs, s.totalReviews, none⟩]

/-! ## Concrete inputs used by witnesses and counterexamples -/

/-- Example repository rows. -/
def exRepo (i : Nat) : RepoRow := ⟨i, "acme", "widgets", "acme/widgets"⟩

/-- Behaviour of a repository whose two fetches return empty lists. -/
def exOkBeh : RepoBehavior := ⟨1000, .ok [], .ok [], fun _ => []⟩

/-- Behaviour of a repository whose commit fetch throws. -/
def exFailBeh : RepoBehavior := ⟨1000, .error .transport, .ok [], fun _ => []⟩

/-- Store tracking three repositories, with empty data and history. -/
def exStore3 : Store := ⟨[⟨1, "o", "a", "o/a"⟩, ⟨2, "o", "b", "o/b"⟩, ⟨3, "o", "c", "o/c"⟩],
  [], [], [], [], []⟩

/-- Behaviour map failing exactly on repository 2. -/
def exBehFail2 : Nat → RepoBehavior := fun i => if i = 2 then exFailBeh else exOkBeh

/-- PR list item with id/number `i`, update time `u` (for the C2 scenario). -/
def exPR (i u : Nat) : PRItem := ⟨i, i, none, "t", "open", 1, 2, 10, none, none, u⟩

/-- Descending-by-update-time pages: page 1 full of newer items, page 2 only
items strictly older than watermark 100, page 3 nonempty. -/
def exPages : List (List PRItem) :=
  [[exPR 1 200, exPR 2 150], [exPR 3 50, exPR 4 40], [exPR 5 30, exPR 6 20]]

/-- Commit list item `i`; its detail call fails when `bad` is true. -/
def exCommitItem (i : Nat) (bad : Bool) : CommitItem :=
  ⟨s!"sha{i}", some "alice", some "a@x", "msg", 3, 1, 500 + i, bad⟩

/-- One commit page on which the third detail call throws. -/
def exCommitPages : List (List CommitItem) :=
  [[exCommitItem 1 false, exCommitItem 2 false, exCommitItem 3 true]]

/-- Behaviour whose commit fetch is the failing paginated walk above. -/
def exBehC3 : Nat → RepoBehavior :=
  fun _ => ⟨1000, fetchCommitsM exCommitPages 100, .ok [], fun _ => []⟩

/-- Store tracking a single repository with empty data and history. -/
def exStore1 : Store := ⟨[exRepo 1], [], [], [], [], []⟩

/-- Commit record used by the C4 scenario. -/
def exCommitRec : CommitRec := ⟨"sha1", some "alice", some "a@x", "msg", 3, 1, 501⟩

/-- Behaviour whose commit fetch succeeds with one commit and whose PR fetch
then throws. -/
def exBehC4 : RepoBehavior := ⟨1000, .ok [exCommitRec], .error .transport, fun _ => []⟩

/-- Fresh orchestration state over the single-repository store. -/
def exOrchS : OrchS := ⟨exStore1, [], [], 0, 0, 0, 0⟩

/-- Cycle state reached by the C5 witness run (both fetches succeed). -/
def exC5State : OrchS := resState (syncOneRepo 1 (exRepo 1) exOkBeh exOrchS)

/-- Store populated with one row per table, for the C9 witness: repository 1
with a commit, a PR and its review, plus an unrelated repository 2 commit,
and a `repo_sync_state` watermark row for repository 1. -/
def exStoreC9 : Store :=
  ⟨[⟨1, "o", "a", "o/a"⟩, ⟨2, "o", "b", "o/b"⟩],
   [⟨"s1", 1, some "alice", none, "m", 1, 1, 10⟩, ⟨"s2", 2, some "bob", none, "m", 1, 1, 11⟩],
   [⟨5, 1, 1, some "alice", "t", "open", 1, 1, 10, none, none⟩,
    ⟨6, 2, 1, some "bob", "u", "open", 1, 1, 10, none, none⟩],
   [⟨9, 5, "bob", "APPROVED", 12⟩, ⟨10, 6, "alice", "APPROVED", 13⟩],
   [⟨1, some 100, some 100, 100⟩],
   []⟩

/-- Surviving commit of the C9 witness (owned by repository 2). -/
def exCommitRow2 : CommitRow := ⟨"s2", 2, some "bob", none, "m", 1, 1, 11⟩

/-- Surviving review of the C9 witness (on repository 2's pull request). -/
def exReviewRow2 : ReviewRow := ⟨10, 6, "alice", "APPROVED", 13⟩

/-- Repository 1's pull request in the C9 witness store. -/
def exPRRow1 : PRRow := ⟨5, 1, 1, some "alice", "t", "open", 1, 1, 10, none, none⟩

/-! ## Upsert lemmas -/

theorem upsertBy_filter_ne {α κ : Type} [DecidableEq κ] (key : α → κ) (r : α) (t : List α) :
    (upsertBy key r t).filter (fun x => key x ≠ key r) =
      t.filter (fun x => key x ≠ key r) := by
  induction t with
  | nil => simp [upsertBy]
  | cons a t ih =>
    by_cases h : key a = key r <;>
      simp [upsertBy, List.filter_cons, h] at ih ⊢

theorem upsertBy_idem {α κ : Type} [DecidableEq κ] (key : α → κ) (r : α) (t : List α) :
    upsertBy key r (upsertBy key r t) = upsertBy key r t := by
  show (upsertBy key r t).filter (fun x => key x ≠ key r) ++ [r] = upsertBy key r t
  rw [upsertBy_filter_ne]
  rfl

theorem upsertBy_filter_eq {α κ : Type} [DecidableEq κ] (key : α → κ) (r : α) (t : List α) :
    (upsertBy key r t).filter (fun x => key x = key r) = [r] := by
  induction t with
  | nil => simp [upsertBy]
  | cons a t ih =>
    by_cases h : key a = key r <;>
      simp [upsertBy, List.filter_cons, h] at ih ⊢

/-- C7: for every commit, pull request and review, persisting the same
record twice with an identical payload is the same as persisting it once,
and the stored table holds exactly one row for the record's natural key
(commit SHA, PR id, review id), with field values identical to a single
insertion: the second write is an overwrite, not a duplicate. -/
theorem idempotent_upsert (st : Store) (c : CommitRow) (p : PRRow) (v : ReviewRow) :
    (insertCommit c (insertCommit c st) = insertCommit c st ∧
      (insertCommit c st).commits.filter (fun x => x.sha = c.sha) = [c]) ∧
    (insertPullRequest p (insertPullRequest p st) = insertPullRequest p st ∧
      (insertPullRequest p st).pull_requests.filter (fun x => x.id = p.id) = [p]) ∧
    (insertReview v (insertReview v st) = insertReview v st ∧
      (insertReview v st).reviews.filter (fun x => x.id = v.id) = [v]) := by
  refine ⟨⟨?_, ?_⟩, ⟨?_, ?_⟩, ⟨?_, ?_⟩⟩
  · simp [insertCommit, upsertBy_idem]
  · simpa using upsertBy_filter_eq CommitRow.sha c st.commits
  · simp [insertPullRequest, upsertBy_idem]
  · simpa using upsertBy_filter_eq PRRow.id p st.pull_requests
  · simp [insertReview, upsertBy_idem]
  · simpa using upsertBy_filter_eq ReviewRow.id v st.reviews

/-- C9: deleting a tracked repository removes its reviews (through the
pull-request subquery), its pull requests, its commits and the repository
row itself, while its `repo_sync_state` row — the `last_commit_sync` /
`last_pr_sync` watermarks — is left untouched, so a stale watermark survives
repository deletion. -/
theorem removeRepo_keeps_sync_state (st : Store) (id : Nat) :
    (removeRepo id st).repo_sync_state = st.repo_sync_state ∧
    (removeRepo id st).sync_runs = st.sync_runs ∧
    (∀ c ∈ (removeRepo id st).commits, c.repo_id ≠ id) ∧
    (∀ p ∈ (removeRepo id st).pull_requests, p.repo_id ≠ id) ∧
    (∀ r ∈ (removeRepo id st).repos, r.id ≠ id) ∧
    (∀ rv ∈ (removeRepo id st).reviews, ∀ p ∈ st.pull_requests,
        p.repo_id = id → rv.pr_id ≠ p.id) := by
  refine ⟨rfl, rfl, ?_, ?_, ?_, ?_⟩
  · intro c hc
    simp [removeRepo, List.mem_filter] at hc
    exact hc.2
  · intro p hp
    simp [removeRepo, List.mem_filter] at hp
    exact hp.2
  · intro r hr
    simp [removeRepo, List.mem_filter] at hr
    exact hr.2
  · intro rv hrv p hp hpid
    simp [removeRepo, List.mem_filter] at hrv
    exact fun hEq => hrv.2 p hp hpid hEq.symm

/-- Witness for C9 at a concrete populated store: the watermark row of the
deleted repository survives, repository 2's commit keeps its owner, and the
surviving review does not reference the deleted repository's pull request. -/
theorem removeRepo_keeps_sync_state_witness :
    (removeRepo 1 exStoreC9).repo_sync_state = exStoreC9.repo_sync_state ∧
    exCommitRow2.repo_id ≠ 1 ∧ exReviewRow2.pr_id ≠ exPRRow1.id := by
  refine ⟨(removeRepo_keeps_sync_state exStoreC9 1).1, ?_, ?_⟩
  · exact (removeRepo_keeps_sync_state exStoreC9 1).2.2.1 exCommitRow2 (by decide)
  · exact (removeRepo_keeps_sync_state exStoreC9 1).2.2.2.2.2 exReviewRow2 (by decide)
      exPRRow1 (by decide) (by decide)

/-! ## fetchPullRequests lemmas -/

theorem scanPRPage_mem (w : Nat) (l : List PRItem) :
    ∀ r ∈ (scanPRPage (some w) l).1, ∃ it ∈ l, it.toRec = r ∧ w ≤ it.updated_at := by
  induction l with
  | nil => simp [scanPRPage]
  | cons pr rest ih =>
    intro r hr
    by_cases h : pr.updated_at < w
    · simp only [scanPRPage, if_pos h] at hr
      obtain ⟨it, hit, he⟩ := ih r hr
      exact ⟨it, List.mem_cons_of_mem _ hit, he⟩
    · simp only [scanPRPage, if_neg h] at hr
      rcases List.mem_cons.mp hr with he | hm
      · exact ⟨pr, List.mem_cons_self _ _, he.symm, Nat.le_of_not_lt h⟩
      · obtain ⟨it, hit, hp⟩ := ih r hm
        exact ⟨it, List.mem_cons_of_mem _ hit, hp⟩

theorem scanPRPage_flag (w : Nat) (l : List PRItem) :
    (scanPRPage (some w) l).2 = true ↔ ∃ it ∈ l, it.updated_at < w := by
  induction l with
  | nil => simp [scanPRPage]
  | cons pr rest ih =>
    by_cases h : pr.updated_at < w
    · simp [scanPRPage, h]
    · simp [scanPRPage, h, ih]

theorem scanPRPage_all_older (w : Nat) (l : List PRItem)
    (h : ∀ it ∈ l, it.updated_at < w) : (scanPRPage (some w) l).1 = [] := by
  induction l with
  | nil => simp [scanPRPage]
  | cons pr rest ih =>
    have hpr : pr.updated_at < w := h pr (List.mem_cons_self _ _)
    simp only [scanPRPage, if_pos hpr]
    exact ih fun it hit => h it (List.mem_cons_of_mem _ hit)

theorem fetchPullRequestsGo_mem (w perPage : Nat) (pages : List (List PRItem)) :
    ∀ r ∈ (fetchPullRequestsGo (some w) perPage pages).1,
      ∃ it ∈ pages.flatten, it.toRec = r ∧ w ≤ it.updated_at := by
  induction pages with
  | nil => simp [fetchPullRequestsGo]
  | cons page rest ih =>
    intro r hr
    unfold fetchPullRequestsGo at hr
    by_cases h0 : page.length = 0
    · simp [h0] at hr
    · by_cases hf : (scanPRPage (some w) page).2 = true
      · simp only [if_neg h0, if_pos hf] at hr
        obtain ⟨it, hit, he⟩ := scanPRPage_mem w page r hr
        exact ⟨it, by simp [List.mem_flatten]; exact Or.inl hit, he⟩
      · by_cases hs : page.length < perPage
        · simp only [if_neg h0, if_neg hf, if_pos hs] at hr
          obtain ⟨it, hit, he⟩ := scanPRPage_mem w page r hr
          exact ⟨it, by simp [List.mem_flatten]; exact Or.inl hit, he⟩
        · simp only [if_neg h0, if_neg hf, if_neg hs] at hr
          rcases List.mem_append.mp hr with hm | hm
          · obtain ⟨it, hit, he⟩ := scanPRPage_mem w page r hm
            exact ⟨it, by simp [List.mem_flatten]; exact Or.inl hit, he⟩
          · obtain ⟨it, hit, he⟩ := ih r hm
            exact ⟨it, by simp only [List.flatten_cons]; exact List.mem_append_right _ hit, he⟩

/-- C2: with a watermark, over a page sequence sorted by update time
descending, the fetch loop never stores a pull request whose update time is
strictly older than the watermark (every stored record traces back to an
item at or after the watermark); once a nonempty, fully scanned page
contained such an older item, no further page is requested; in particular,
when page 2 holds only older items the loop issues at most two page
requests — page 3 is never requested — and every stored record comes from
page 1. -/
theorem fetchPullRequests_watermark_shortcircuit (pages : List (List PRItem))
    (w perPage : Nat) :
    (∀ r ∈ (fetchPullRequestsM pages (some w) perPage).1,
        ∃ it ∈ pages.flatten, it.toRec = r ∧ w ≤ it.updated_at) ∧
    (∀ page rest, page ≠ [] → (∃ it ∈ page, it.updated_at < w) →
        (fetchPullRequestsGo (some w) perPage (page :: rest)).2 = 1) ∧
    (∀ p1 p2 rest, (∀ it ∈ p2, it.updated_at < w) →
        (fetchPullRequestsM (p1 :: p2 :: rest) (some w) perPage).2 ≤ 2 ∧
        ∀ r ∈ (fetchPullRequestsM (p1 :: p2 :: rest) (some w) perPage).1,
          ∃ it ∈ p1, it.toRec = r ∧ w ≤ it.updated_at) := by
  refine ⟨fetchPullRequestsGo_mem w perPage pages, ?_, ?_⟩
  · intro page rest hne hold
    have h0 : ¬ page.length = 0 := by simpa [List.length_eq_zero] using hne
    have hf : (scanPRPage (some w) page).2 = true := (scanPRPage_flag w page).mpr hold
    unfold fetchPullRequestsGo
    simp [h0, hf]
  · intro p1 p2 rest hold
    by_cases h0 : p1.length = 0
    · constructor
      · unfold fetchPullRequestsM fetchPullRequestsGo; simp [h0]
      · unfold fetchPullRequestsM fetchPullRequestsGo; simp [h0]
    · by_cases hf : (scanPRPage (some w) p1).2 = true
      · constructor
        · unfold fetchPullRequestsM fetchPullRequestsGo; simp [h0, hf]
        · unfold fetchPullRequestsM fetchPullRequestsGo
          simp only [if_neg h0, if_pos hf]
          exact scanPRPage_mem w p1
      · by_cases hs : p1.length < perPage
        · constructor
          · unfold fetchPullRequestsM fetchPullRequestsGo; simp [h0, hf, hs]
          · unfold fetchPullRequestsM fetchPullRequestsGo
            simp only [if_neg h0, if_neg hf, if_pos hs]
            exact scanPRPage_mem w p1
        · have hp2 : (fetchPullRequestsGo (some w) perPage (p2 :: rest)) =
              ((scanPRPage (some w) p2).1, 1) ∨
              (fetchPullRequestsGo (some w) perPage (p2 :: rest)) = ([], 1) := by
            by_cases h2 : p2.length = 0
            · right; unfold fetchPullRequestsGo; simp [h2]
            · left
              have hne2 : p2 ≠ [] := by
                intro h; rw [h] at h2; exact h2 rfl
              have hold2 : ∃ it ∈ p2, it.updated_at < w := by
                cases p2 with
                | nil => exact absurd rfl hne2
                | cons a t =>
                  exact ⟨a, List.mem_cons_self _ _, hold a (List.mem_cons_self _ _)⟩
              have hf2 : (scanPRPage (some w) p2).2 = true :=
                (scanPRPage_flag w p2).mpr hold2
              unfold fetchPullRequestsGo
              simp [h2, hf2]
          have hp2nil : (scanPRPage (some w) p2).1 = [] := scanPRPage_all_older w p2 hold
          constructor
          · unfold fetchPullRequestsM fetchPullRequestsGo
            simp only [if_neg h0, if_neg hf, if_neg hs]
            rcases hp2 with h | h <;> simp [h]
          · unfold fetchPullRequestsM fetchPullRequestsGo
            simp only [if_neg h0, if_neg hf, if_neg hs]
            rcases hp2 with h | h <;> rw [h] <;> simp [hp2nil] <;>
              exact scanPRPage_mem w p1

/-- Witness for C2 on the concrete three-page scenario with watermark 100:
a page that holds only older items is scanned but triggers no further page
request, the whole fetch issues at most two page requests, and a stored
record traces back to a new-enough item. -/
theorem fetchPullRequests_watermark_shortcircuit_witness :
    (fetchPullRequestsGo (some 100) 2 [[exPR 3 50, exPR 4 40], [exPR 5 30]]).2 = 1 ∧
    (fetchPullRequestsM
        ([exPR 1 200, exPR 2 150] :: [exPR 3 50, exPR 4 40] :: [[exPR 5 30, exPR 6 20]])
        (some 100) 2).2 ≤ 2 ∧
    ∃ it ∈ exPages.flatten, it.toRec = (exPR 1 200).toRec ∧ 100 ≤ it.updated_at := by
  refine ⟨?_, ?_, ?_⟩
  · exact (fetchPullRequests_watermark_shortcircuit exPages 100 2).2.1
      [exPR 3 50, exPR 4 40] [[exPR 5 30]] (by decide) (by decide)
  · exact ((fetchPullRequests_watermark_shortcircuit exPages 100 2).2.2
      [exPR 1 200, exPR 2 150] [exPR 3 50, exPR 4 40] [[exPR 5 30, exPR 6 20]]
      (by decide)).1
  · exact (fetchPullRequests_watermark_shortcircuit exPages 100 2).1
      (exPR 1 200).toRec (by decide)

/-! ## Store projection lemmas -/

theorem find?_append_none {α : Type} (p : α → Bool) (l : List α) (r : α)
    (h : l.find? p = none) (hr : p r = true) : (l ++ [r]).find? p = some r := by
  induction l with
  | nil => simp [List.find?, hr]
  | cons a t ih =>
    cases hpa : p a with
    | true =>
      rw [List.find?_cons_of_pos _ hpa] at h
      exact absurd h (by simp)
    | false =>
      rw [List.find?_cons_of_neg _ (by simp [hpa])] at h
      rw [List.cons_append, List.find?_cons_of_neg _ (by simp [hpa])]
      exact ih h

theorem find?_map_update {α : Type} (p : α → Bool) (g : α → α) (l : List α)
    (hp : ∀ x, p (g x) = p x) : (l.map g).find? p = (l.find? p).map g := by
  induction l with
  | nil => rfl
  | cons a t ih =>
    rw [List.map_cons]
    cases hpa : p a with
    | true =>
      rw [List.find?_cons_of_pos _ (by rw [hp]; exact hpa),
          List.find?_cons_of_pos _ hpa]
      rfl
    | false =>
      rw [List.find?_cons_of_neg _ (by rw [hp]; simp [hpa]),
          List.find?_cons_of_neg _ (by simp [hpa])]
      exact ih

theorem commitsFoldl_repo_sync_state (cs : List CommitRec) (rid : Nat) (st : Store) :
    (cs.foldl (fun t c => insertCommit (commitRowOf rid c) t) st).repo_sync_state =
      st.repo_sync_state := by
  induction cs generalizing st with
  | nil => rfl
  | cons c cs ih => exact ih (insertCommit (commitRowOf rid c) st)

theorem commitsFoldl_sync_runs (cs : List CommitRec) (rid : Nat) (st : Store) :
    (cs.foldl (fun t c => insertCommit (commitRowOf rid c) t) st).sync_runs =
      st.sync_runs := by
  induction cs generalizing st with
  | nil => rfl
  | cons c cs ih => exact ih (insertCommit (commitRowOf rid c) st)

theorem commitsFoldl_commits (cs : List CommitRec) (rid : Nat) (st : Store) :
    (cs.foldl (fun t c => insertCommit (commitRowOf rid c) t) st).commits =
      cs.foldl (fun t c => upsertBy CommitRow.sha (commitRowOf rid c) t) st.commits := by
  induction cs generalizing st with
  | nil => rfl
  | cons c cs ih => exact ih (insertCommit (commitRowOf rid c) st)

theorem reviewsFoldl_repo_sync_state (rs : List ReviewRec) (prId : Nat) (st : Store) :
    (rs.foldl (fun s v => insertReview (reviewRowOf prId v) s) st).repo_sync_state =
      st.repo_sync_state := by
  induction rs generalizing st with
  | nil => rfl
  | cons v rs ih => exact ih (insertReview (reviewRowOf prId v) st)

theorem reviewsFoldl_sync_runs (rs : List ReviewRec) (prId : Nat) (st : Store) :
    (rs.foldl (fun s v => insertReview (reviewRowOf prId v) s) st).sync_runs =
      st.sync_runs := by
  induction rs generalizing st with
  | nil => rfl
  | cons v rs ih => exact ih (insertReview (reviewRowOf prId v) st)

theorem reviewsFoldl_commits (rs : List ReviewRec) (prId : Nat) (st : Store) :
    (rs.foldl (fun s v => insertReview (reviewRowOf prId v) s) st).commits =
      st.commits := by
  induction rs generalizing st with
  | nil => rfl
  | cons v rs ih => exact ih (insertReview (reviewRowOf prId v) st)

theorem insertPRsLoop_repo_sync_state (rid : Nat) (f : Nat → List ReviewRec)
    (prs : List PRRec) (st : Store) :
    (insertPRsLoop rid f prs st).1.repo_sync_state = st.repo_sync_state := by
  induction prs generalizing st with
  | nil => rfl
  | cons pr rest ih =>
    unfold insertPRsLoop
    rw [ih, reviewsFoldl_repo_sync_state]
    rfl

theorem insertPRsLoop_sync_runs (rid : Nat) (f : Nat → List ReviewRec)
    (prs : List PRRec) (st : Store) :
    (insertPRsLoop rid f prs st).1.sync_runs = st.sync_runs := by
  induction prs generalizing st with
  | nil => rfl
  | cons pr rest ih =>
    unfold insertPRsLoop
    rw [ih, reviewsFoldl_sync_runs]
    rfl

theorem insertPRsLoop_commits (rid : Nat) (f : Nat → List ReviewRec)
    (prs : List PRRec) (st : Store) :
    (insertPRsLoop rid f prs st).1.commits = st.commits := by
  induction prs generalizing st with
  | nil => rfl
  | cons pr rest ih =>
    unfold insertPRsLoop
    rw [ih, reviewsFoldl_commits]
    rfl

theorem updateRepoSyncState_sync_runs (id : Nat) (a b : Option Nat) (now : Nat) (st : Store) :
    (updateRepoSyncState id a b now st).sync_runs = st.sync_runs := by
  unfold updateRepoSyncState
  cases getRepoSyncState id st <;> rfl

theorem updateRepoSyncState_commits (id : Nat) (a b : Option Nat) (now : Nat) (st : Store) :
    (updateRepoSyncState id a b now st).commits = st.commits := by
  unfold updateRepoSyncState
  cases getRepoSyncState id st <;> rfl

theorem getRepoSyncState_update_self (id T now : Nat) (st : Store) :
    getRepoSyncState id (updateRepoSyncState id (some T) (some T) now st) =
      some ⟨id, some T, some T, now⟩ := by
  unfold updateRepoSyncState
  cases hg : getRepoSyncState id st with
  | none =>
    unfold getRepoSyncState at hg ⊢
    exact find?_append_none _ _ _ hg (by simp)
  | some r0 =>
    unfold getRepoSyncState at hg ⊢
    have hp : ∀ x : SyncStateRow,
        (fun r : SyncStateRow => decide (r.repo_id = id))
          ((fun r : SyncStateRow =>
            if r.repo_id = id then
              { r with
                last_commit_sync := coalesce (some T) r.last_commit_sync,
                last_pr_sync := coalesce (some T) r.last_pr_sync,
                updated_at := now }
            else r) x) =
          (fun r : SyncStateRow => decide (r.repo_id = id)) x := by
      intro x
      by_cases hx : x.repo_id = id <;> simp [hx]
    have hr0 : r0.repo_id = id := by
      have := List.find?_some hg
      simpa using this
    rw [show (st.repo_sync_state.map fun r =>
          if r.repo_id = id then
            { r with
              last_commit_sync := coalesce (some T) r.last_commit_sync,
              last_pr_sync := coalesce (some T) r.last_pr_sync,
              updated_at := now }
          else r).find? (fun r => decide (r.repo_id = id)) =
        ((st.repo_sync_state.find? fun r => decide (r.repo_id = id)).map fun r =>
          if r.repo_id = id then
            { r with
              last_commit_sync := coalesce (some T) r.last_commit_sync,
              last_pr_sync := coalesce (some T) r.last_pr_sync,
              updated_at := now }
          else r) from find?_map_update _ _ _ hp]
    rw [hg]
    simp [hr0, coalesce]

theorem updateSyncRunProgress_commits (a b c d e : Nat) (st : Store) :
    (updateSyncRunProgress a b c d e st).commits = st.commits := rfl

theorem updateSyncRunProgress_repo_sync_state (a b c d e : Nat) (st : Store) :
    (updateSyncRunProgress a b c d e st).repo_sync_state = st.repo_sync_state := rfl

/-- C5: every per-repository sync cycle that completes sets both the
`last_commit_sync` and `last_pr_sync` watermarks to the same value — the
wall-clock instant captured at the top of that cycle — whatever the fetched
item lists were, including empty ones; since successive cycles capture later
start instants, watermarks only move forward in wall-clock time. -/
theorem cycle_sets_watermarks (runId : Nat) (repo : RepoRow) (b : RepoBehavior)
    (s s1 : OrchS) (h : syncOneRepo runId repo b s = .ok s1) :
    getRepoSyncState repo.id s1.st =
      some ⟨repo.id, some b.startTime, some b.startTime, b.startTime⟩ := by
  unfold syncOneRepo at h
  cases hc : b.commitResult with
  | error e => rw [hc] at h; exact absurd h (by simp)
  | ok commits =>
    rw [hc] at h
    cases hp : b.prResult with
    | error e => rw [hp] at h; exact absurd h (by simp)
    | ok prs =>
      rw [hp] at h
      injection h with h1
      rw [← h1]
      exact getRepoSyncState_update_self repo.id b.startTime b.startTime _

/-- Witness for C5: a concrete completed cycle over the single-repository
store leaves both watermarks at the cycle-start instant 1000. -/
theorem cycle_sets_watermarks_witness :
    getRepoSyncState (exRepo 1).id exC5State.st =
      some ⟨(exRepo 1).id, some 1000, some 1000, 1000⟩ :=
  cycle_sets_watermarks 1 (exRepo 1) exOkBeh exOrchS exC5State (by decide)

/-- Counterexample to C3 as stated: over one commit page whose third detail
call throws, the two records fetched before the failure are *not* persisted
— the run ends with an empty commit table — because the orchestrator only
persists after the whole fetch returns and a thrown fetch loses its local
accumulator (config/page.tsx:522-532, github.ts:137-189). -/
theorem incremental_persistence_cex :
    commitsFetchedBefore exCommitPages ≠ [] ∧
    (runSync exStore1 none none (.ok ⟨5000, 5000, 0, 77⟩) exBehC3 42).st.commits = [] ∧
    ¬ (∀ r ∈ commitsFetchedBefore exCommitPages,
        commitRowOf 1 r ∈
          (runSync exStore1 none none (.ok ⟨5000, 5000, 0, 77⟩) exBehC3 42).st.commits) := by
  decide

/-- C3 amended: items are persisted by the orchestrator in one batch loop
after the whole fetch for that resource returns — when the commit fetch
throws, no commit from that fetch is persisted (the commit table is exactly
as before the cycle), and when it returns, every fetched commit is upserted.
Only reviews are persisted interleaved, per pull request, during the PR
persistence loop. -/
theorem commit_persistence_batch (runId : Nat) (repo : RepoRow) (b : RepoBehavior)
    (s : OrchS) :
    ((∃ e, b.commitResult = .error e) →
        (resState (syncOneRepo runId repo b s)).st.commits = s.st.commits) ∧
    (∀ cs, b.commitResult = .ok cs →
        (resState (syncOneRepo runId repo b s)).st.commits =
          cs.foldl (fun t c => upsertBy CommitRow.sha (commitRowOf repo.id c) t)
            s.st.commits) := by
  constructor
  · rintro ⟨e, he⟩
    unfold syncOneRepo
    rw [he]
    rfl
  · intro cs hcs
    unfold syncOneRepo
    rw [hcs]
    cases hp : b.prResult with
    | error e =>
      simp only [resState]
      exact commitsFoldl_commits cs repo.id s.st
    | ok prs =>
      simp only [resState]
      rw [updateSyncRunProgress_commits, updateRepoSyncState_commits,
          insertPRsLoop_commits, commitsFoldl_commits]

/-- Witness for the amended C3: the failing concrete fetch leaves the commit
table untouched; the succeeding one batch-upserts its single commit. -/
theorem commit_persistence_batch_witness :
    (resState (syncOneRepo 1 (exRepo 1) (exBehC3 1) exOrchS)).st.commits =
      exOrchS.st.commits ∧
    (resState (syncOneRepo 1 (exRepo 1) exBehC4 exOrchS)).st.commits =
      [exCommitRec].foldl
        (fun t c => upsertBy CommitRow.sha (commitRowOf (exRepo 1).id c) t)
        exOrchS.st.commits := by
  constructor
  · exact (commit_persistence_batch 1 (exRepo 1) (exBehC3 1) exOrchS).1
      ⟨.transport, by decide⟩
  · exact (commit_persistence_batch 1 (exRepo 1) exBehC4 exOrchS).2 [exCommitRec] (by decide)

/-- Counterexample to C4 as stated: in a cycle whose commit fetch succeeds
(and whose commit is persisted) and whose PR fetch then throws,
`last_commit_sync` is *not* advanced — the repository has no sync-state row
at all afterwards — because `updateRepoSyncState` only runs after both
fetches succeed (config/page.tsx:546-572). -/
theorem pr_failure_watermark_cex :
    exBehC4.commitResult = .ok [exCommitRec] ∧
    exBehC4.prResult = .error .transport ∧
    (resState (syncOneRepo 1 (exRepo 1) exBehC4 exOrchS)).st.commits =
      [commitRowOf 1 exCommitRec] ∧
    getRepoSyncState (exRepo 1).id
      (resState (syncOneRepo 1 (exRepo 1) exBehC4 exOrchS)).st = none := by
  decide

/-- C4 amended: when either fetch of a repository's cycle throws — in
particular when the PR fetch fails after the commits were fetched and
persisted — the `repo_sync_state` table is left exactly as it was: neither
`last_commit_sync` nor `last_pr_sync` advances; both watermarks advance
together only when the whole cycle completes. -/
theorem failed_cycle_preserves_watermarks (runId : Nat) (repo : RepoRow) (b : RepoBehavior)
    (s : OrchS) (e : GHError) (s1 : OrchS)
    (h : syncOneRepo runId repo b s = .error (e, s1)) :
    s1.st.repo_sync_state = s.st.repo_sync_state := by
  unfold syncOneRepo at h
  cases hc : b.commitResult with
  | error e0 =>
    rw [hc] at h
    injection h with h1
    rw [← (Prod.mk.injEq _ _ _ _).mp h1 |>.2]
  | ok commits =>
    rw [hc] at h
    cases hp : b.prResult with
    | error e0 =>
      rw [hp] at h
      injection h with h1
      rw [← (Prod.mk.injEq _ _ _ _).mp h1 |>.2]
      exact commitsFoldl_repo_sync_state commits repo.id s.st
    | ok prs =>
      rw [hp] at h
      exact absurd h (by simp)

/-- Witness for the amended C4: the concrete commit-ok/PR-fail cycle leaves
the (empty) sync-state table unchanged. -/
theorem failed_cycle_preserves_watermarks_witness :
    (resState (syncOneRepo 1 (exRepo 1) exBehC4 exOrchS)).st.repo_sync_state =
      exOrchS.st.repo_sync_state :=
  failed_cycle_preserves_watermarks 1 (exRepo 1) exBehC4 exOrchS .transport
    (resState (syncOneRepo 1 (exRepo 1) exBehC4 exOrchS)) (by decide)

/-! ## Loop step lemmas -/

theorem syncOneRepo_fail (runId : Nat) (repo : RepoRow) (b : RepoBehavior) (s : OrchS)
    (hb : b.okB = false) :
    ∃ e s1, syncOneRepo runId repo b s = .error (e, s1) ∧
      s1.completedRepos = s.completedRepos ∧
      s1.totalCommits = s.totalCommits ∧
      s1.totalPRs = s.totalPRs ∧
      s1.totalReviews = s.totalReviews ∧
      s1.st.sync_runs = s.st.sync_runs := by
  unfold RepoBehavior.okB at hb
  cases hc : b.commitResult with
  | error e =>
    refine ⟨e, resState (syncOneRepo runId repo b s), ?_, ?_, ?_, ?_, ?_, ?_⟩ <;>
      (unfold syncOneRepo resState; rw [hc])
  | ok cs =>
    cases hp : b.prResult with
    | ok ps => rw [hc, hp] at hb; simp [exceptOk] at hb
    | error e =>
      refine ⟨e, resState (syncOneRepo runId repo b s), ?_, ?_, ?_, ?_, ?_, ?_⟩ <;>
        (unfold syncOneRepo resState; rw [hc, hp])
      exact commitsFoldl_sync_runs cs repo.id s.st

theorem syncOneRepo_ok (repo : RepoRow) (b : RepoBehavior) (s : OrchS)
    (hb : b.okB = true) :
    ∃ s1, syncOneRepo 1 repo b s = .ok s1 ∧
      s1.completedRepos = s.completedRepos + 1 ∧
      ∀ total started, runInv total started s → runInv total started s1 := by
  unfold RepoBehavior.okB at hb
  cases hc : b.commitResult with
  | error e => rw [hc] at hb; simp [exceptOk] at hb
  | ok cs =>
    cases hp : b.prResult with
    | error e => rw [hc, hp] at hb; simp [exceptOk] at hb
    | ok ps =>
      refine ⟨resState (syncOneRepo 1 repo b s), ?_, ?_, ?_⟩
      · unfold syncOneRepo resState
        rw [hc, hp]
      · unfold syncOneRepo resState
        rw [hc, hp]
      · intro total started hI
        unfold runInv at hI ⊢
        unfold syncOneRepo resState
        rw [hc, hp]
        simp only []
        unfold updateSyncRunProgress
        rw [updateRepoSyncState_sync_runs, insertPRsLoop_sync_runs,
            commitsFoldl_sync_runs, hI]
        simp

theorem syncLoop_fail_inv (beh : Nat → RepoBehavior) (repos : List RepoRow) (k : Nat)
    (s : OrchS) (hk : k < repos.length)
    (hok : ∀ j, j < k → (beh ((repos.getD j dummyRepo)).id).okB = true)
    (hf : (beh (repos.getD k dummyRepo).id).okB = false) :
    ∃ e s1, syncLoop 1 beh repos s = .error (e, s1) ∧
      s1.completedRepos = s.completedRepos + k ∧
      ∀ total started, runInv total started s → runInv total started s1 := by
  induction repos generalizing k s with
  | nil => simp at hk
  | cons r rest ih =>
    cases k with
    | zero =>
      have hf0 : (beh r.id).okB = false := by simpa using hf
      obtain ⟨e, s1, hstep, h1, h2, h3, h4, h5⟩ := syncOneRepo_fail 1 r (beh r.id) s hf0
      refine ⟨e, s1, ?_, by simpa using h1, ?_⟩
      · unfold syncLoop
        rw [hstep]
      · intro total started hI
        unfold runInv at hI ⊢
        rw [h1, h2, h3, h4, h5]
        exact hI
    | succ k0 =>
      have hok0 : (beh r.id).okB = true := by simpa using hok 0 (Nat.succ_pos k0)
      obtain ⟨s1, hstep, hcomp, hKeep⟩ := syncOneRepo_ok r (beh r.id) s hok0
      have hk0 : k0 < rest.length := by simpa using hk
      have hok0' : ∀ j, j < k0 → (beh (rest.getD j dummyRepo).id).okB = true := by
        intro j hj
        have := hok (j + 1) (Nat.succ_lt_succ hj)
        simpa using this
      have hf0 : (beh (rest.getD k0 dummyRepo).id).okB = false := by simpa using hf
      obtain ⟨e, s2, hloop, hcomp2, hKeep2⟩ := ih k0 s1 hk0 hok0' hf0
      refine ⟨e, s2, ?_, ?_, ?_⟩
      · unfold syncLoop
        rw [hstep]
        exact hloop
      · rw [hcomp2, hcomp]
        omega
      · intro total started hI
        exact hKeep2 total started (hKeep total started hI)

/-! ## Path lemmas for the POST handler -/

theorem runSync_eq_main_ok (st0 : Store) (fn : Option String) (ids : Option (List Nat))
    (info : RateLimitInfo) (beh : Nat → RepoBehavior) (clock : Nat) (repos : List RepoRow)
    (hres : resolveRepos st0 fn ids = some repos)
    (hne : ¬ repos.length = 0) (hrl : ¬ info.remaining < 50) :
    runSync st0 fn ids (.ok info) beh clock =
      runSyncMain st0 repos [⟨"progress", some info.resetAt⟩] beh clock := by
  unfold runSync
  rw [hres]
  simp [hne, hrl]

theorem runSync_eq_main_err (st0 : Store) (fn : Option String) (ids : Option (List Nat))
    (er : GHError) (beh : Nat → RepoBehavior) (clock : Nat) (repos : List RepoRow)
    (hres : resolveRepos st0 fn ids = some repos) (hne : ¬ repos.length = 0) :
    runSync st0 fn ids (.error er) beh clock =
      runSyncMain st0 repos [⟨"progress", none⟩] beh clock := by
  unfold runSync
  rw [hres]
  simp [hne]

theorem runSyncMain_loop_error (st0 : Store) (repos : List RepoRow) (pre : List SyncEvent)
    (beh : Nat → RepoBehavior) (clock : Nat) (e : GHError) (s1 : OrchS)
    (h : syncLoop (startSyncRun repos.length clock st0).1 beh repos
        ⟨(startSyncRun repos.length clock st0).2, pre ++ [⟨"start", none⟩], [], 0, 0, 0, 0⟩ =
      .error (e, s1)) :
    runSyncMain st0 repos pre beh clock =
      ⟨s1.events ++ [catchEvent e],
       completeSyncRun (startSyncRun repos.length clock st0).1
         (if s1.completedRepos > 0 then "partial" else "error")
         (some e.message) clock s1.st,
       s1.calls⟩ := by
  simp only [runSyncMain]
  rw [h]

theorem runSyncMain_loop_ok (st0 : Store) (repos : List RepoRow) (pre : List SyncEvent)
    (beh : Nat → RepoBehavior) (clock : Nat) (s : OrchS)
    (h : syncLoop (startSyncRun repos.length clock st0).1 beh repos
        ⟨(startSyncRun repos.length clock st0).2, pre ++ [⟨"start", none⟩], [], 0, 0, 0, 0⟩ =
      .ok s) :
    runSyncMain st0 repos pre beh clock =
      ⟨s.events ++ [⟨"complete", none⟩],
       completeSyncRun (startSyncRun repos.length clock st0).1 "complete" none clock s.st,
       s.calls⟩ := by
  simp only [runSyncMain]
  rw [h]

/-- C1: when a fatal error is raised while processing repository `k` (zero
based) of a batch — every earlier repository's cycle succeeded, repository
`k`'s failed — the run's `sync_runs` row is finalized with status `partial`
and `completed_repos = k` when `k` is positive, and with status `error` and
`completed_repos = 0` when no repository had completed. The run starts on an
empty run history and passes the pre-flight gate. -/
theorem run_partial_classification (st0 : Store) (rl : RateLimitInfo)
    (beh : Nat → RepoBehavior) (clock k : Nat)
    (hruns : st0.sync_runs = [])
    (hrl : ¬ rl.remaining < 50)
    (hk : k < st0.repos.length)
    (hok : ∀ j, j < k → (beh (st0.repos.getD j dummyRepo).id).okB = true)
    (hf : (beh (st0.repos.getD k dummyRepo).id).okB = false) :
    ∃ tc tp tr msg,
      (runSync st0 none none (.ok rl) beh clock).st.sync_runs =
        [⟨1, clock, some clock, if 0 < k then "partial" else "error",
          st0.repos.length, k, tc, tp, tr, some msg⟩] := by
  have hne : ¬ st0.repos.length = 0 := by omega
  have hres : resolveRepos st0 none none = some st0.repos := rfl
  rw [runSync_eq_main_ok st0 none none rl beh clock st0.repos hres hne hrl]
  have hid : (startSyncRun st0.repos.length clock st0).1 = 1 := by
    simp [startSyncRun, hruns]
  obtain ⟨e, s1, hloop, hcomp, hKeep⟩ :=
    syncLoop_fail_inv beh st0.repos k
      ⟨(startSyncRun st0.repos.length clock st0).2,
        [⟨"progress", some rl.resetAt⟩] ++ [⟨"start", none⟩], [], 0, 0, 0, 0⟩ hk hok hf
  rw [runSyncMain_loop_error st0 st0.repos [⟨"progress", some rl.resetAt⟩] beh clock e s1
    (by rw [hid]; exact hloop)]
  have hI0 : runInv st0.repos.length clock
      ⟨(startSyncRun st0.repos.length clock st0).2,
        [⟨"progress", some rl.resetAt⟩] ++ [⟨"start", none⟩], [], 0, 0, 0, 0⟩ := by
    unfold runInv startSyncRun
    rw [hruns]
    rfl
  have hI1 := hKeep st0.repos.length clock hI0
  unfold runInv at hI1
  refine ⟨s1.totalCommits, s1.totalPRs, s1.totalReviews, e.message, ?_⟩
  rw [hid]
  unfold completeSyncRun
  simp only []
  rw [hI1]
  simp [hcomp]

/-- Witness for C1: over three tracked repositories with repository 2 (the
second) failing after repository 1 completed, the run row ends `partial`
with one completed repository. -/
theorem run_partial_classification_witness :
    ∃ tc tp tr msg,
      (runSync exStore3 none none (.ok ⟨5000, 5000, 0, 77⟩) exBehFail2 42).st.sync_runs =
        [⟨1, 42, some 42, if 0 < 1 then "partial" else "error", 3, 1, tc, tp, tr, some msg⟩] := by
  have h := run_partial_classification exStore3 ⟨5000, 5000, 0, 77⟩ exBehFail2 42 1
    (by decide) (by decide) (by decide) (by decide) (by decide)
  simpa using h

/-! ## Event-stream shape lemmas -/

theorem catchEvent_terminal (e : GHError) : (catchEvent e).isTerminal = true := by
  cases e <;> simp [catchEvent, SyncEvent.isTerminal]

theorem syncOneRepo_shape (runId : Nat) (repo : RepoRow) (b : RepoBehavior) (s : OrchS) :
    ∃ evs cs,
      (∀ e ∈ evs, e.isTerminal = false) ∧
      (resState (syncOneRepo runId repo b s)).events = s.events ++ evs ∧
      (resState (syncOneRepo runId repo b s)).calls =
        s.calls ++ .commitsCall repo.id :: cs ∧
      (resState (syncOneRepo runId repo b s)).st.sync_runs.length =
        s.st.sync_runs.length := by
  cases hc : b.commitResult with
  | error e =>
    refine ⟨[⟨"repo_start", none⟩, ⟨"progress", none⟩], [], by decide, ?_, ?_, ?_⟩ <;>
      (unfold syncOneRepo resState; rw [hc])
  | ok cs =>
    cases hp : b.prResult with
    | error e =>
      refine ⟨[⟨"repo_start", none⟩, ⟨"progress", none⟩, ⟨"progress", none⟩,
          ⟨"progress", none⟩], [.prsCall repo.id], by decide, ?_, ?_, ?_⟩ <;>
        (unfold syncOneRepo resState; rw [hc, hp]; simp only [])
      · simp
      · simp
      · exact congrArg List.length (commitsFoldl_sync_runs cs repo.id s.st)
    | ok ps =>
      refine ⟨[⟨"repo_start", none⟩, ⟨"progress", none⟩, ⟨"progress", none⟩,
          ⟨"progress", none⟩, ⟨"progress", none⟩, ⟨"repo_done", none⟩],
          .prsCall repo.id ::
            (insertPRsLoop repo.id b.reviewsFor ps
              (List.foldl (fun t c => insertCommit (commitRowOf repo.id c) t) s.st cs)).2.2,
          by decide, ?_, ?_, ?_⟩ <;>
        (unfold syncOneRepo resState; rw [hc, hp]; simp only [])
      · simp
      · simp
      · unfold updateSyncRunProgress
        simp only [List.length_map]
        rw [updateRepoSyncState_sync_runs, insertPRsLoop_sync_runs, commitsFoldl_sync_runs]

theorem syncLoop_shape (runId : Nat) (beh : Nat → RepoBehavior) (repos : List RepoRow)
    (s : OrchS) :
    ∃ evs cs,
      (∀ e ∈ evs, e.isTerminal = false) ∧
      (resState (syncLoop runId beh repos s)).events = s.events ++ evs ∧
      (resState (syncLoop runId beh repos s)).calls = s.calls ++ cs ∧
      (resState (syncLoop runId beh repos s)).st.sync_runs.length =
        s.st.sync_runs.length := by
  induction repos generalizing s with
  | nil => exact ⟨[], [], by simp, by simp [syncLoop, resState], by simp [syncLoop, resState],
      by simp [syncLoop, resState]⟩
  | cons r rest ih =>
    obtain ⟨evs1, cs1, hnt1, hev1, hcl1, hln1⟩ := syncOneRepo_shape runId r (beh r.id) s
    cases hstep : syncOneRepo runId r (beh r.id) s with
    | error es =>
      rw [hstep] at hev1 hcl1 hln1
      refine ⟨evs1, .commitsCall r.id :: cs1, hnt1, ?_, ?_, ?_⟩ <;>
        (unfold syncLoop; rw [hstep]; simp only [resState] at *)
      · exact hev1
      · exact hcl1
      · exact hln1
    | ok s1 =>
      rw [hstep] at hev1 hcl1 hln1
      simp only [resState] at hev1 hcl1 hln1
      obtain ⟨evs2, cs2, hnt2, hev2, hcl2, hln2⟩ := ih s1
      refine ⟨evs1 ++ evs2, (.commitsCall r.id :: cs1) ++ cs2, ?_, ?_, ?_, ?_⟩ <;>
        (try (unfold syncLoop; rw [hstep]))
      · intro e he
        rcases List.mem_append.mp he with h | h
        · exact hnt1 e h
        · exact hnt2 e h
      · rw [hev2, hev1, List.append_assoc]
      · rw [hcl2, hcl1, List.append_assoc]
      · rw [hln2, hln1]

theorem syncLoop_cons_calls (runId : Nat) (beh : Nat → RepoBehavior) (r : RepoRow)
    (rest : List RepoRow) (s : OrchS) :
    ∃ cs, (resState (syncLoop runId beh (r :: rest) s)).calls =
      s.calls ++ .commitsCall r.id :: cs := by
  obtain ⟨evs1, cs1, _, _, hcl1, _⟩ := syncOneRepo_shape runId r (beh r.id) s
  cases hstep : syncOneRepo runId r (beh r.id) s with
  | error es =>
    rw [hstep] at hcl1
    refine ⟨cs1, ?_⟩
    unfold syncLoop
    rw [hstep]
    exact hcl1
  | ok s1 =>
    rw [hstep] at hcl1
    simp only [resState] at hcl1
    obtain ⟨_, cs2, _, _, hcl2, _⟩ := syncLoop_shape runId beh rest s1
    refine ⟨cs1 ++ cs2, ?_⟩
    unfold syncLoop
    rw [hstep, hcl2, hcl1]
    simp

theorem runSyncMain_single_terminal (st0 : Store) (repos : List RepoRow)
    (pre : List SyncEvent) (beh : Nat → RepoBehavior) (clock : Nat)
    (hpre : ∀ e ∈ pre, e.isTerminal = false) :
    ∃ evs t, (runSyncMain st0 repos pre beh clock).events = evs ++ [t] ∧
      t.isTerminal = true ∧ ∀ e ∈ evs, e.isTerminal = false := by
  obtain ⟨evs, cs, hnt, hev, _, _⟩ :=
    syncLoop_shape (startSyncRun repos.length clock st0).1 beh repos
      ⟨(startSyncRun repos.length clock st0).2, pre ++ [⟨"start", none⟩], [], 0, 0, 0, 0⟩
  have hstart : ∀ e ∈ pre ++ [⟨"start", none⟩] ++ evs, SyncEvent.isTerminal e = false := by
    intro e he
    rcases List.mem_append.mp he with h | h
    · rcases List.mem_append.mp h with h2 | h2
      · exact hpre e h2
      · simp only [List.mem_singleton] at h2
        rw [h2]
        rfl
    · exact hnt e h
  cases hl : syncLoop (startSyncRun repos.length clock st0).1 beh repos
      ⟨(startSyncRun repos.length clock st0).2, pre ++ [⟨"start", none⟩], [], 0, 0, 0, 0⟩ with
  | ok s =>
    rw [hl] at hev
    simp only [resState] at hev
    rw [runSyncMain_loop_ok st0 repos pre beh clock s hl]
    refine ⟨pre ++ [⟨"start", none⟩] ++ evs, ⟨"complete", none⟩, ?_, by decide, hstart⟩
    rw [hev, List.append_assoc]
  | error es =>
    rw [hl] at hev
    simp only [resState] at hev
    rw [runSyncMain_loop_error st0 repos pre beh clock es.1 es.2 hl]
    refine ⟨pre ++ [⟨"start", none⟩] ++ evs, catchEvent es.1, ?_,
      catchEvent_terminal es.1, hstart⟩
    rw [hev, List.append_assoc]

/-- C8: every execution of the sync endpoint produces an event stream with
exactly one terminal event — `complete` on a successful run or `error` on a
not-found target, empty target set, insufficient budget or mid-run failure —
it is the last event of the stream, and the source closes the stream
immediately after emitting it on every path. -/
theorem stream_single_terminal (st0 : Store) (fn : Option String) (ids : Option (List Nat))
    (rl : Except GHError RateLimitInfo) (beh : Nat → RepoBehavior) (clock : Nat) :
    ∃ evs t, (runSync st0 fn ids rl beh clock).events = evs ++ [t] ∧
      t.isTerminal = true ∧ ∀ e ∈ evs, e.isTerminal = false := by
  unfold runSync
  cases hres : resolveRepos st0 fn ids with
  | none => exact ⟨[], ⟨"error", none⟩, rfl, by decide, by simp⟩
  | some repos =>
    by_cases hne : repos.length = 0
    · simp only [if_pos hne]
      exact ⟨[], ⟨"error", none⟩, rfl, by decide, by simp⟩
    · simp only [if_neg hne]
      cases rl with
      | ok info =>
        by_cases hlow : info.remaining < 50
        · simp only [if_pos hlow]
          refine ⟨[⟨"progress", some info.resetAt⟩], ⟨"error", some info.resetAt⟩,
            rfl, by rfl, ?_⟩
          intro e he
          simp only [List.mem_singleton] at he
          rw [he]
          rfl
        · simp only [if_neg hlow]
          exact runSyncMain_single_terminal st0 repos _ beh clock
            (by intro e he; simp only [List.mem_singleton] at he; rw [he]; rfl)
      | error er =>
        exact runSyncMain_single_terminal st0 repos _ beh clock
          (by intro e he; simp only [List.mem_singleton] at he; rw [he]; rfl)

theorem startSyncRun_runs_length (n now : Nat) (st : Store) :
    (startSyncRun n now st).2.sync_runs.length = st.sync_runs.length + 1 := by
  simp [startSyncRun]

theorem completeSyncRun_runs_length (a : Nat) (b : String) (c : Option String) (d : Nat)
    (st : Store) : (completeSyncRun a b c d st).sync_runs.length = st.sync_runs.length := by
  simp [completeSyncRun]

theorem runSyncMain_shape (st0 : Store) (repos : List RepoRow) (pre : List SyncEvent)
    (beh : Nat → RepoBehavior) (clock : Nat) :
    ∃ s1 t, (runSyncMain st0 repos pre beh clock).events = s1.events ++ [t] ∧
      (runSyncMain st0 repos pre beh clock).calls = s1.calls ∧
      (runSyncMain st0 repos pre beh clock).st.sync_runs.length =
        s1.st.sync_runs.length ∧
      s1 = resState (syncLoop (startSyncRun repos.length clock st0).1 beh repos
        ⟨(startSyncRun repos.length clock st0).2, pre ++ [⟨"start", none⟩],
          [], 0, 0, 0, 0⟩) := by
  cases hl : syncLoop (startSyncRun repos.length clock st0).1 beh repos
      ⟨(startSyncRun repos.length clock st0).2, pre ++ [⟨"start", none⟩],
        [], 0, 0, 0, 0⟩ with
  | ok s =>
    rw [runSyncMain_loop_ok st0 repos pre beh clock s hl]
    exact ⟨s, ⟨"complete", none⟩, rfl, rfl,
      completeSyncRun_runs_length _ _ _ _ s.st, rfl⟩
  | error es =>
    rw [runSyncMain_loop_error st0 repos pre beh clock es.1 es.2 hl]
    exact ⟨es.2, catchEvent es.1, rfl, rfl,
      completeSyncRun_runs_length _ _ _ _ es.2.st, rfl⟩

/-- C6: a sync request issued when the remote budget's remaining count is
below the pre-flight threshold of 50 produces exactly a rate-limit
`progress` event followed by a terminal `error` event, both carrying the
budget's reset time; it invokes no fetcher and leaves the store untouched —
in particular no SyncRun record is created. -/
theorem preflight_budget_gate (st0 : Store) (fn : Option String) (ids : Option (List Nat))
    (info : RateLimitInfo) (beh : Nat → RepoBehavior) (clock : Nat) (repos : List RepoRow)
    (hres : resolveRepos st0 fn ids = some repos)
    (hne : ¬ repos.length = 0)
    (hlow : info.remaining < 50) :
    runSync st0 fn ids (.ok info) beh clock =
      ⟨[⟨"progress", some info.resetAt⟩, ⟨"error", some info.resetAt⟩], st0, []⟩ := by
  unfold runSync
  rw [hres]
  simp [hne, hlow]

/-- Witness for C6: with 10 remaining against the threshold of 50, the
concrete run emits exactly the progress and error events carrying reset
time 77, touches nothing, and calls no fetcher. -/
theorem preflight_budget_gate_witness :
    runSync exStore1 none none (.ok ⟨10, 5000, 0, 77⟩) exBehFail2 42 =
      ⟨[⟨"progress", some 77⟩, ⟨"error", some 77⟩], exStore1, []⟩ :=
  preflight_budget_gate exStore1 none none ⟨10, 5000, 0, 77⟩ exBehFail2 42 [exRepo 1]
    rfl (by decide) (by decide)

/-- C10: when the pre-flight rate-limit query itself throws, the
orchestrator swallows the exception: the stream's first event is a
non-terminal `progress` event, a SyncRun record is still created (one row is
appended to `sync_runs`), and the fetchers are invoked, starting with the
first repository's commit fetch. -/
theorem ratelimit_throw_swallowed (st0 : Store) (er : GHError) (beh : Nat → RepoBehavior)
    (clock : Nat) (r : RepoRow) (rest : List RepoRow)
    (hrepos : st0.repos = r :: rest) :
    (runSync st0 none none (.error er) beh clock).events.head? =
      some ⟨"progress", none⟩ ∧
    (⟨"progress", none⟩ : SyncEvent).isTerminal = false ∧
    (runSync st0 none none (.error er) beh clock).st.sync_runs.length =
      st0.sync_runs.length + 1 ∧
    ∃ cs, (runSync st0 none none (.error er) beh clock).calls =
      .commitsCall r.id :: cs := by
  have hres : resolveRepos st0 none none = some st0.repos := rfl
  have hne : ¬ st0.repos.length = 0 := by rw [hrepos]; simp
  rw [runSync_eq_main_err st0 none none er beh clock st0.repos hres hne, hrepos]
  obtain ⟨s1, t, hev, hcl, hln, hs1⟩ :=
    runSyncMain_shape st0 (r :: rest) [⟨"progress", none⟩] beh clock
  obtain ⟨evs, cs0, hnt, hev1, hcl1, hln1⟩ :=
    syncLoop_shape (startSyncRun (r :: rest).length clock st0).1 beh (r :: rest)
      ⟨(startSyncRun (r :: rest).length clock st0).2,
        [⟨"progress", none⟩] ++ [⟨"start", none⟩], [], 0, 0, 0, 0⟩
  obtain ⟨cs1, hcons⟩ :=
    syncLoop_cons_calls (startSyncRun (r :: rest).length clock st0).1 beh r rest
      ⟨(startSyncRun (r :: rest).length clock st0).2,
        [⟨"progress", none⟩] ++ [⟨"start", none⟩], [], 0, 0, 0, 0⟩
  rw [← hs1] at hev1 hcl1 hln1 hcons
  refine ⟨?_, rfl, ?_, ?_⟩
  · rw [hev, hev1]
    rfl
  · rw [hln, hln1]
    exact startSyncRun_runs_length (r :: rest).length clock st0
  · exact ⟨cs1, by rw [hcl, hcons]; rfl⟩

/-- Witness for C10: on the three-repository store with a thrown rate-limit
query, the run's first event is the swallowed-exception progress event, one
run row is created, and repository 1's commit fetch is invoked. -/
theorem ratelimit_throw_swallowed_witness :
    (runSync exStore3 none none (.error .config) exBehFail2 42).events.head? =
      some ⟨"progress", none⟩ ∧
    (runSync exStore3 none none (.error .config) exBehFail2 42).st.sync_runs.length =
      exStore3.sync_runs.length + 1 ∧
    ∃ cs, (runSync exStore3 none none (.error .config) exBehFail2 42).calls =
      .commitsCall (⟨1, "o", "a", "o/a"⟩ : RepoRow).id :: cs := by
  have h := ratelimit_throw_swallowed exStore3 .config exBehFail2 42
    ⟨1, "o", "a", "o/a"⟩ [⟨2, "o", "b", "o/b"⟩, ⟨3, "o", "c", "o/c"⟩] (by decide)
  exact ⟨h.1, h.2.2.1, h.2.2.2⟩

end DevMetrics
